import Mathlib

/-!
# ArchivAI job queue — verification of the enrichment pipeline core

Shallow embedding of the asynchronous job queue of the note-enrichment
pipeline: the `jobs` table and its atomic claim function `get_next_job`
(from the SQL migration), the backoff policy `calculateBackoff`
(`api-utils`), the per-type executors `processClassifyNote`,
`processEmbedNote`, `processCaptionInk`, `processGeneratePack` and the
runner loop `runJobProcessor` (`jobs.ts`).

Modelling conventions:
* timestamps are integers in milliseconds; `now` is passed explicitly;
* the database is a record of tables; tables are association lists,
  SQL `update ... where id = _` is a `List.map` guarded on the id;
* Supabase `.single()` returns the row only when the filtered selection
  has exactly one row, `none` otherwise (it errors on 0 and on 2+ rows);
* the external AI collaborators (classification, embedding, vision
  captioning, summarization) and the SHA-256 content hash are opaque
  deterministic functions carried in an `Env` record — the queue treats
  them as black boxes that return a value or fail;
* `get_next_job` runs inside a single SQL transaction guarded by
  `for update skip locked`, so each claim is modelled as one atomic
  step on the table; concurrent claims are the serialized composition
  of such steps.
-/

namespace ArchivAI

/-- Job status enumeration, from the `jobs.status` check constraint. -/
inductive JobStatus where
  | queued
  | running
  | succeeded
  | failed
deriving DecidableEq, Repr, BEq

/-- The closed set of job types dispatched by `processJob`. -/
inductive JobType where
  | classify_note
  | embed_note
  | caption_ink
  | generate_pack
deriving DecidableEq, Repr, BEq

/-- Job payload: `classify_note`, `embed_note` and `caption_ink` carry a
`note_id`; `generate_pack` carries a date range (modelled as day-start
timestamps) and a mode. -/
inductive Payload where
  | noteRef (note_id : String)
  | packRange (range_start range_end : Int) (overwrite : Bool)
deriving DecidableEq, Repr, BEq

/-- A row of the `jobs` table (migration `create table jobs`). -/
structure Job where
  id : Nat
  user_id : String
  type : JobType
  payload : Payload
  status : JobStatus
  attempts : Nat
  max_attempts : Nat
  run_after : Int
  locked_at : Option Int
  locked_by : Option String
  started_at : Option Int
  finished_at : Option Int
  duration_ms : Option Int
  tokens_estimate : Option Nat
  last_error : Option String
deriving DecidableEq, Repr, BEq

/-- The stale-lease threshold of `get_next_job`: `interval '5 minutes'`,
in milliseconds. -/
def staleLeaseMs : Int := 5 * 60 * 1000

/-- The `where` clause of the selection in `get_next_job`:
`status = 'queued' and run_after <= now() and (locked_at is null or
locked_at < now() - interval '5 minutes')`. -/
def jobEligible (now : Int) (j : Job) : Bool :=
  j.status == JobStatus.queued && j.run_after ≤ now &&
    (match j.locked_at with
     | none => true
     | some t => t < now - staleLeaseMs)

/-- Keep the row with the smaller `run_after` (preferring the earlier
listed row on a tie). -/
def pickBetter (j : Job) : Option Job → Option Job
  | none => some j
  | some b => if j.run_after ≤ b.run_after then some j else some b

/-- Selection `order by run_after asc limit 1` over the eligible rows: the first
row attaining the minimal `run_after` (ties broken arbitrarily in SQL;
the model keeps the earliest listed row). -/
def selectNext (now : Int) : List Job → Option Job
  | [] => none
  | j :: rest =>
      if jobEligible now j then pickBetter j (selectNext now rest)
      else selectNext now rest

/-- The `update jobs set ...` applied by `get_next_job` to the selected
row: mark running, acquire the lease, increment `attempts`. -/
def claimJob (now : Int) (runnerId : String) (j : Job) : Job :=
  { j with
    locked_at := some now
    locked_by := some runnerId
    status := JobStatus.running
    started_at := some now
    attempts := j.attempts + 1 }

/-- The SQL function `get_next_job(p_runner_id)`: select one eligible
row (under `for update skip locked`), mark it claimed, and return the
updated row. Returns the claimed row (if any) and the updated table. -/
def get_next_job (now : Int) (runnerId : String) (jobs : List Job) :
    Option Job × List Job :=
  match selectNext now jobs with
  | none => (none, jobs)
  | some v =>
      (some (claimJob now runnerId v),
       jobs.map fun j => if j.id == v.id then claimJob now runnerId j else j)

/-- Function `calculateBackoff` from `api-utils.ts`:
`Math.min(Math.pow(2, attempts), maxMinutes)` minutes, returned in
milliseconds. -/
def calculateBackoff (attempts : Nat) (maxMinutes : Nat) : Nat :=
  (min (2 ^ attempts) maxMinutes) * 60 * 1000

/-- Ink stroke data stored in `notes.ink_json`; the executors only read
`strokes?.length`, so strokes are abstracted to unit markers. -/
structure InkData where
  strokes : Option (List Unit)
deriving DecidableEq, Repr, BEq

/-- A row of the `notes` table (the columns read or written by the
executors). -/
structure Note where
  id : String
  user_id : String
  title : Option String
  content_text : Option String
  ink_json : Option InkData
  ink_image_path : Option String
  ink_caption : Option String
  category_id : Option String
  language_mix : Option (List (String × Rat))
  created_at : Int
deriving DecidableEq, Repr, BEq

/-- A row of the `note_embeddings` table (`note_id` is the primary
key). The 768-dimensional vector is modelled as a list of rationals. -/
structure NoteEmbeddingRow where
  note_id : String
  user_id : String
  embedding : List Rat
  model : String
  content_hash : String
deriving DecidableEq, Repr, BEq

/-- A row of the `categories` table. -/
structure Category where
  id : String
  user_id : String
  name : String
deriving DecidableEq, Repr, BEq

/-- A row of the `knowledge_packs` table. -/
structure KnowledgePackRow where
  id : Nat
  user_id : String
  range_start : Int
  range_end : Int
  content_md : String
deriving DecidableEq, Repr, BEq

/-- The shared relational store: every table the queue core touches,
plus a fresh-id counter standing in for `gen_random_uuid()`. -/
structure Db where
  notes : List Note
  categories : List Category
  embeddings : List NoteEmbeddingRow
  packs : List KnowledgePackRow
  jobs : List Job
  nextJobId : Nat
  nextPackId : Nat
deriving DecidableEq, Repr, BEq

/-- Result returned by every executor (`JobResult` in `jobs.ts`). -/
structure JobResult where
  success : Bool
  tokensEstimate : Option Nat
  error : Option String
deriving DecidableEq, Repr, BEq

/-- Classification service result shape. -/
structure ClassificationResult where
  proposed_category_name : String
  confidence : Rat
  new_category_reason : Option String
  language_mix : List (String × Rat)
deriving DecidableEq, Repr, BEq

/-- External collaborators and ambient inputs, injected into the
executors: the current time, the opaque SHA-256 content hash, the
remote AI services, and the outcome of the ink-image download. The
services are deterministic functions of their text inputs; failure of
the vision call is an `Except.error` (a thrown exception in the
source). -/
structure Env where
  now : Int
  hashFn : String → String
  embedFn : String → List Rat
  embeddingModel : String
  classifyFn : String → List String → List String → ClassificationResult
  summarizeFn : List Note → String
  visionResult : Except String String
  downloadResult : Except String Unit

/-- Supabase `.single()`: the row when the selection has exactly one,
`none` otherwise. -/
def singleRow {α : Type} : List α → Option α
  | [a] => some a
  | _ => none

/-- The `note_id` of a payload; `undefined` (here `none`) when the
payload has no such field. -/
def payloadNoteId : Payload → Option String
  | Payload.noteRef nid => some nid
  | Payload.packRange _ _ _ => none

/-- The note select shared by the three note executors:
`.eq('id', noteId).eq('user_id', job.user_id).single()`. -/
def lookupNote (db : Db) (userId : String) (noteId : String) : Option Note :=
  singleRow (db.notes.filter fun n => n.id == noteId && n.user_id == userId)

/-- Text assembly `[note.title, note.content_text, note.ink_caption].filter(Boolean)`
then `join('\n\n')` — JavaScript `Boolean` drops both absent fields and
empty strings. -/
def textForProcessing (n : Note) : String :=
  String.intercalate "\n\n"
    (([n.title, n.content_text, n.ink_caption].filterMap id).filter
      fun s => s ≠ "")

/-- Token estimate `Math.ceil(text.length / 4)` on natural inputs. -/
def ceilDiv4 (n : Nat) : Nat := (n + 3) / 4

/-- The `!text.trim()` guard: true exactly when JavaScript's `trim`
yields the empty string, i.e. the text is empty or all whitespace. -/
def isBlank (s : String) : Bool := s.data.all Char.isWhitespace

/-- The row inserted by `enqueueJob`: `status = 'queued'`,
`attempts = 0`, `max_attempts = 3`. -/
def freshJob (idv : Nat) (userId : String) (ty : JobType) (payload : Payload)
    (runAfter : Int) : Job :=
  { id := idv
    user_id := userId
    type := ty
    payload := payload
    status := JobStatus.queued
    attempts := 0
    max_attempts := 3
    run_after := runAfter
    locked_at := none
    locked_by := none
    started_at := none
    finished_at := none
    duration_ms := none
    tokens_estimate := none
    last_error := none }

/-- Function `enqueueJob(userId, type, payload, runAfter?)` from `jobs.ts`:
insert a fresh row, `run_after = runAfter ?? now`. -/
def enqueueJob (now : Int) (db : Db) (userId : String) (ty : JobType)
    (payload : Payload) (runAfter : Option Int) : Db :=
  { db with
    jobs := db.jobs ++ [freshJob db.nextJobId userId ty payload (runAfter.getD now)]
    nextJobId := db.nextJobId + 1 }

/-- The `JobResult` of a failing note lookup. -/
def noteNotFound : JobResult :=
  { success := false, tokensEstimate := none, error := some "Note not found" }

/-- A no-op success with zero reported cost. -/
def zeroCostSuccess : JobResult :=
  { success := true, tokensEstimate := some 0, error := none }

/-- Stable insertion by ascending integer key (models `order by _ asc`). -/
def insertByKey {α : Type} (key : α → Int) (a : α) : List α → List α
  | [] => [a]
  | b :: rest =>
      if key a < key b then a :: b :: rest else b :: insertByKey key a rest

/-- Stable sort by ascending integer key. -/
def sortByKey {α : Type} (key : α → Int) : List α → List α
  | [] => []
  | a :: rest => insertByKey key a (sortByKey key rest)

/-- Dedup `[...new Set(xs)]`: deduplicate keeping first occurrences. -/
def dedupFirst (l : List String) : List String :=
  l.foldl (fun acc a => if acc.contains a then acc else acc ++ [a]) []

/-- Function `processClassifyNote` from `jobs.ts`: fetch the note, classify its
concatenated text against the owner's existing and recently-used
categories, persist `language_mix`, and assign the proposed category
when confidence is at least 0.7 and the category already exists. -/
def processClassifyNote (env : Env) (db : Db) (job : Job) : JobResult × Db :=
  match payloadNoteId job.payload with
  | none => (noteNotFound, db)
  | some nid =>
    match lookupNote db job.user_id nid with
    | none => (noteNotFound, db)
    | some note =>
      let text := textForProcessing note
      if isBlank text then (zeroCostSuccess, db)
      else
        let categoryNames :=
          ((db.categories.filter fun c => c.user_id == job.user_id).take 50).map
            Category.name
        let recentNotes :=
          (sortByKey (fun n => -n.created_at)
            (db.notes.filter fun n =>
              n.user_id == job.user_id && n.category_id.isSome)).take 20
        let recentCategoryIds := dedupFirst (recentNotes.filterMap Note.category_id)
        let recentCategories :=
          if recentCategoryIds.isEmpty then []
          else
            ((db.categories.filter fun c =>
                recentCategoryIds.contains c.id).take 10).map Category.name
        let result := env.classifyFn text categoryNames recentCategories
        let db1 :=
          { db with
            notes := db.notes.map fun n =>
              if n.id == nid then { n with language_mix := some result.language_mix }
              else n }
        let db2 :=
          if (7 : Rat) / 10 ≤ result.confidence then
            match singleRow (db1.categories.filter fun c =>
                c.user_id == job.user_id &&
                c.name == result.proposed_category_name) with
            | some cat =>
                { db1 with
                  notes := db1.notes.map fun n =>
                    if n.id == nid then { n with category_id := some cat.id }
                    else n }
            | none => db1
          else db1
        ({ success := true, tokensEstimate := some (ceilDiv4 text.length),
           error := none }, db2)

/-- The idempotency check of `processEmbedNote`:
`existingEmbedding?.content_hash === contentHash` where
`existingEmbedding` is the `.single()` row for this `note_id` (a null
row — zero or several — compares unequal). -/
def storedHashMatches (db : Db) (nid contentHash : String) : Bool :=
  match singleRow (db.embeddings.filter fun e => e.note_id == nid) with
  | some e => e.content_hash == contentHash
  | none => false

/-- Upsert into `note_embeddings` keyed by the `note_id` primary key. -/
def upsertEmbedding (db : Db) (row : NoteEmbeddingRow) : Db :=
  if db.embeddings.any (fun e => e.note_id == row.note_id) then
    { db with
      embeddings := db.embeddings.map fun e =>
        if e.note_id == row.note_id then row else e }
  else { db with embeddings := db.embeddings ++ [row] }

/-- Function `processEmbedNote` from `jobs.ts`: fetch the note, hash its
concatenated text, skip as a zero-cost no-op when the stored
`content_hash` matches, otherwise call the embedding service and upsert
the vector with the new hash. The third component counts calls to the
remote embedding service. -/
def processEmbedNote (env : Env) (db : Db) (job : Job) :
    JobResult × Db × Nat :=
  match payloadNoteId job.payload with
  | none => (noteNotFound, db, 0)
  | some nid =>
    match lookupNote db job.user_id nid with
    | none => (noteNotFound, db, 0)
    | some note =>
      let text := textForProcessing note
      if isBlank text then (zeroCostSuccess, db, 0)
      else
        let contentHash := env.hashFn text
        if storedHashMatches db nid contentHash then
          (zeroCostSuccess, db, 0)
        else
          let db1 := upsertEmbedding db
            { note_id := nid
              user_id := job.user_id
              embedding := env.embedFn text
              model := env.embeddingModel
              content_hash := contentHash }
          ({ success := true, tokensEstimate := some (ceilDiv4 text.length),
             error := none }, db1, 1)

/-- Ink stroke count: `inkData.strokes?.length || 0`. -/
def strokeCount (ink : InkData) : Nat :=
  match ink.strokes with
  | some l => l.length
  | none => 0

/-- The deterministic fallback caption used when no image is available
or the download / vision call fails. -/
def fallbackCaption (ink : InkData) : String :=
  "Handwritten note (" ++ toString (strokeCount ink) ++ " strokes)"

/-- Function `processCaptionInk` from `jobs.ts`: no-op success when a caption
already exists or there is no ink data; otherwise produce a caption
(vision call on the stored image, falling back to the stroke-count
caption on download or vision failure), store it on the note, and
enqueue an `embed_note` job for the same note. -/
def processCaptionInk (env : Env) (db : Db) (job : Job) : JobResult × Db :=
  match payloadNoteId job.payload with
  | none => (noteNotFound, db)
  | some nid =>
    match lookupNote db job.user_id nid with
    | none => (noteNotFound, db)
    | some note =>
      if note.ink_caption.isSome then (zeroCostSuccess, db)
      else
        match note.ink_json with
        | none => (zeroCostSuccess, db)
        | some ink =>
          let captionTokens : String × Nat :=
            match note.ink_image_path with
            | none => (fallbackCaption ink, 100)
            | some _ =>
                match env.downloadResult with
                | Except.error _ => (fallbackCaption ink, 100)
                | Except.ok _ =>
                    match env.visionResult with
                    | Except.error _ => (fallbackCaption ink, 100)
                    | Except.ok c => (c, 500)
          let db1 :=
            { db with
              notes := db.notes.map fun n =>
                if n.id == nid then { n with ink_caption := some captionTokens.1 }
                else n }
          let db2 := enqueueJob env.now db1 job.user_id JobType.embed_note
            (Payload.noteRef nid) none
          ({ success := true, tokensEstimate := some captionTokens.2,
             error := none }, db2)

/-- End-of-day adjustment: `range_end + 'T23:59:59.999Z'` as a
timestamp. -/
def endOfDay (d : Int) : Int := d + 86399999

/-- Function `processGeneratePack` from `jobs.ts`: skip when a pack for the
range exists and the mode is `skip`; otherwise summarize the notes in
range and upsert the pack keyed by (owner, range). A payload without a
range makes every range filter fail (PostgREST errors on an undefined
filter), surfacing as an executor failure. -/
def processGeneratePack (env : Env) (db : Db) (job : Job) : JobResult × Db :=
  match job.payload with
  | Payload.noteRef _ =>
      ({ success := false, tokensEstimate := none,
         error := some "Invalid payload" }, db)
  | Payload.packRange rs re overwrite =>
    let existing := singleRow (db.packs.filter fun p =>
      p.user_id == job.user_id && p.range_start == rs && p.range_end == re)
    if existing.isSome && !overwrite then (zeroCostSuccess, db)
    else
      let notes :=
        sortByKey Note.created_at
          (db.notes.filter fun n =>
            n.user_id == job.user_id && rs ≤ n.created_at &&
              n.created_at ≤ endOfDay re)
      let contentMd := env.summarizeFn notes
      let db1 :=
        match existing with
        | some p =>
            { db with
              packs := db.packs.map fun q =>
                if q.id == p.id then { q with content_md := contentMd } else q }
        | none =>
            { db with
              packs := db.packs ++
                [{ id := db.nextPackId
                   user_id := job.user_id
                   range_start := rs
                   range_end := re
                   content_md := contentMd }]
              nextPackId := db.nextPackId + 1 }
      let inputLen := notes.foldl
        (fun acc n =>
          acc + (n.title.getD "").length + (n.content_text.getD "").length +
            (n.ink_caption.getD "").length) 0
      ({ success := true,
         tokensEstimate := some (ceilDiv4 (inputLen + contentMd.length)),
         error := none }, db1)

/-- Function `processJob` from `jobs.ts`: dispatch on the job type. -/
def processJob (env : Env) (db : Db) (job : Job) : JobResult × Db :=
  match job.type with
  | JobType.classify_note => processClassifyNote env db job
  | JobType.embed_note =>
      let r := processEmbedNote env db job
      (r.1, r.2.1)
  | JobType.caption_ink => processCaptionInk env db job
  | JobType.generate_pack => processGeneratePack env db job

/-- The success update of the runner loop: `status = 'succeeded'`,
timing recorded, lease cleared; `tokens_estimate: result.tokensEstimate
|| null` turns a zero estimate into `null`. The model is instantaneous,
so `duration_ms` is 0. -/
def finalizeSuccess (now : Int) (res : JobResult) (row : Job) : Job :=
  { row with
    status := JobStatus.succeeded
    finished_at := some now
    duration_ms := some 0
    tokens_estimate :=
      match res.tokensEstimate with
      | some n => if n == 0 then none else some n
      | none => none
    locked_at := none
    locked_by := none }

/-- The inline backoff of the runner loop:
`Math.min(Math.pow(2, attempts), 60)` minutes in milliseconds. -/
def failureBackoffMs (attempts : Nat) : Int :=
  ((min (2 ^ attempts) 60 : Nat) : Int) * 60 * 1000

/-- Error message `error.message` for the thrown `new Error(result.error || 'Job
failed')`. -/
def failureMessage (res : JobResult) : String :=
  match res.error with
  | some e => if e == "" then "Job failed" else e
  | none => "Job failed"

/-- The failure finalization of the runner loop (`catch` block):
terminal failure when `attempts >= max_attempts`, otherwise requeue
with backoff. `attempts` and `max_attempts` are read from the claimed
job object returned by `get_next_job` (already incremented at claim
time). -/
def finalizeFailure (now : Int) (errMsg : String) (attempts maxAttempts : Nat)
    (row : Job) : Job :=
  if maxAttempts ≤ attempts then
    { row with
      status := JobStatus.failed
      finished_at := some now
      duration_ms := some 0
      last_error := some errMsg
      locked_at := none
      locked_by := none }
  else
    { row with
      status := JobStatus.queued
      run_after := now + failureBackoffMs attempts
      last_error := some errMsg
      locked_at := none
      locked_by := none }

/-- Ghost record of one loop iteration's outcome: the job succeeded,
was requeued for retry, or failed terminally. -/
inductive Outcome where
  | success
  | retried
  | terminalFailed
deriving DecidableEq, Repr, BEq

/-- Counters returned by `runJobProcessor`, plus the final store and a
ghost log of per-iteration outcomes. -/
structure RunResult where
  processed : Nat
  failed : Nat
  outcomes : List Outcome
  db : Db
deriving Repr

/-- One iteration of the runner loop body: claim the next job via
`get_next_job` (none = loop break), dispatch it through `exec`, then
apply the success / retry / terminal-failure finalization update to the
claimed row. Returns the iteration's outcome and the new store. -/
def runnerStep (exec : Db → Job → JobResult × Db) (now : Int)
    (runnerId : String) (db : Db) : Option (Outcome × Db) :=
  match get_next_job now runnerId db.jobs with
  | (none, _) => none
  | (some job, jobs₁) =>
      let db₁ : Db := { db with jobs := jobs₁ }
      let rd := exec db₁ job
      if rd.1.success then
        some (Outcome.success,
          { rd.2 with
            jobs := rd.2.jobs.map fun j =>
              if j.id == job.id then finalizeSuccess now rd.1 j else j })
      else
        let errMsg := failureMessage rd.1
        let db₂ : Db :=
          { rd.2 with
            jobs := rd.2.jobs.map fun j =>
              if j.id == job.id then
                finalizeFailure now errMsg job.attempts job.max_attempts j
              else j }
        if job.max_attempts ≤ job.attempts then
          some (Outcome.terminalFailed, db₂)
        else some (Outcome.retried, db₂)

/-- Function `runJobProcessor` from `jobs.ts`, parametrized by the executor
dispatch `exec` (instantiated with `processJob`): loop up to
`batchLimit` times, claiming and dispatching the next job and
finalizing its status. `processed` counts every claimed-and-dispatched
job; `failed` is incremented exactly on the iterations whose outcome is
a terminal failure (the `attempts >= max_attempts` branch of the
`catch` block). -/
def runJobProcessor (exec : Db → Job → JobResult × Db) (now : Int)
    (runnerId : String) : Nat → Db → RunResult
  | 0, db => { processed := 0, failed := 0, outcomes := [], db := db }
  | Nat.succ n, db =>
    match runnerStep exec now runnerId db with
    | none => { processed := 0, failed := 0, outcomes := [], db := db }
    | some (o, db') =>
        let rest := runJobProcessor exec now runnerId n db'
        { processed := rest.processed + 1
          failed := rest.failed +
            (match o with
             | Outcome.terminalFailed => 1
             | _ => 0)
          outcomes := o :: rest.outcomes
          db := rest.db }

/-- N claim calls, serialized by the store's `for update skip locked`
row lock: each runner performs one atomic `get_next_job`. Returns the
per-runner results and the final table. -/
def runClaims (now : Int) (runners : List String) (jobs : List Job) :
    List (Option Job) × List Job :=
  match runners with
  | [] => ([], jobs)
  | r :: rest =>
      let p := get_next_job now r jobs
      let q := runClaims now rest p.2
      (p.1 :: q.1, q.2)

/-! ### Fixtures used by the concrete instances -/

/-- A freshly enqueued `classify_note` job, eligible at any `now ≥ 0`. -/
def fxQueuedJob : Job :=
  { id := 1
    user_id := "u"
    type := JobType.classify_note
    payload := Payload.noteRef "n1"
    status := JobStatus.queued
    attempts := 0
    max_attempts := 3
    run_after := 0
    locked_at := none
    locked_by := none
    started_at := none
    finished_at := none
    duration_ms := none
    tokens_estimate := none
    last_error := none }

/-- A job abandoned mid-execution: `status = 'running'`, lease acquired
at time 0 by `runnerA`, eligible for execution (`run_after = 0`). -/
def fxStaleRunningJob : Job :=
  { fxQueuedJob with
    status := JobStatus.running
    attempts := 1
    locked_at := some 0
    locked_by := some "runnerA"
    started_at := some 0 }

/-- An executor dispatch that always fails (a transient remote error). -/
def fxFailingExec : Db → Job → JobResult × Db :=
  fun db _ =>
    ({ success := false, tokensEstimate := none, error := some "boom" }, db)

/-- A store holding only the fresh `classify_note` job. -/
def fxDb0 : Db :=
  { notes := []
    categories := []
    embeddings := []
    packs := []
    jobs := [fxQueuedJob]
    nextJobId := 2
    nextPackId := 1 }

/-- The store after three runner invocations (at times 0, 10⁶ and
3·10⁶ ms) whose executor always fails. -/
def fxThreeFailuresDb : Db :=
  (runJobProcessor fxFailingExec 3000000 "r" 10
    ((runJobProcessor fxFailingExec 1000000 "r" 10
      ((runJobProcessor fxFailingExec 0 "r" 10 fxDb0).db)).db)).db

/-- A claimed job on its first attempt (retry case). -/
def fxRetryJob : Job :=
  { fxQueuedJob with
    status := JobStatus.running
    attempts := 1
    locked_at := some 100
    locked_by := some "r"
    started_at := some 100 }

/-- A claimed job on its third attempt (terminal case). -/
def fxTerminalJob : Job := { fxRetryJob with attempts := 3 }

/-- A concrete environment for the executor instances. -/
def fxEnv : Env :=
  { now := 0
    hashFn := fun s => "sha:" ++ s
    embedFn := fun _ => [1, 2]
    embeddingModel := "gemini-embedding-001"
    classifyFn := fun _ _ _ =>
      { proposed_category_name := "cat"
        confidence := 0
        new_category_reason := none
        language_mix := [] }
    summarizeFn := fun _ => "pack"
    visionResult := Except.ok "A small diagram"
    downloadResult := Except.ok () }

/-- The environment whose ink-image download fails. -/
def fxEnvDownloadFail : Env :=
  { fxEnv with downloadResult := Except.error "download failed" }

/-- A text note owned by `u`. -/
def fxNote : Note :=
  { id := "n1"
    user_id := "u"
    title := some "T"
    content_text := some "hello world"
    ink_json := none
    ink_image_path := none
    ink_caption := none
    category_id := none
    language_mix := none
    created_at := 0 }

/-- Two-stroke ink data. -/
def fxInk : InkData := { strokes := some [(), ()] }

/-- An ink note with a stored image and no caption yet. -/
def fxInkNote : Note :=
  { fxNote with
    title := none
    content_text := none
    ink_json := some fxInk
    ink_image_path := some "ink/u/n1.png" }

/-- An ink note that already has a caption. -/
def fxCaptionedNote : Note :=
  { fxInkNote with ink_caption := some "already captioned" }

/-- An `embed_note` job for `n1`. -/
def fxEmbedJob : Job := { fxQueuedJob with type := JobType.embed_note }

/-- A `caption_ink` job for `n1`. -/
def fxCaptionJob : Job := { fxQueuedJob with type := JobType.caption_ink }

/-- A store holding the text note and no embeddings. -/
def fxDbWithNote : Db := { fxDb0 with notes := [fxNote], jobs := [] }

/-- A store holding the uncaptioned ink note. -/
def fxDbInk : Db := { fxDb0 with notes := [fxInkNote], jobs := [] }

/-- A store holding the already-captioned ink note. -/
def fxDbCaptioned : Db := { fxDb0 with notes := [fxCaptionedNote], jobs := [] }

/-- Three runner invocations (times 0, 10⁶, 3·10⁶ ms) with the real
dispatch over a store whose only job references a note that does not
exist. -/
def fxMissingNoteFailedDb : Db :=
  (runJobProcessor (processJob { fxEnv with now := 3000000 }) 3000000 "r" 10
    ((runJobProcessor (processJob { fxEnv with now := 1000000 }) 1000000 "r" 10
      ((runJobProcessor (processJob fxEnv) 0 "r" 10 fxDb0).db)).db)).db

/-! ### Lemmas about the claim protocol -/

theorem pickBetter_cases (j c : Job) (r : Option Job)
    (h : pickBetter j r = some c) : c = j ∨ r = some c := by
  cases r with
  | none =>
      left
      simpa [pickBetter] using h.symm
  | some b =>
      simp only [pickBetter] at h
      split at h
      · left; injection h with h; exact h.symm
      · right; rw [h]

theorem selectNext_mem_eligible (now : Int) :
    ∀ (js : List Job) (c : Job), selectNext now js = some c →
      c ∈ js ∧ jobEligible now c = true := by
  intro js
  induction js with
  | nil => intro c h; simp [selectNext] at h
  | cons j rest ih =>
      intro c h
      simp only [selectNext] at h
      cases he : jobEligible now j with
      | false =>
          rw [he] at h
          simp only [Bool.false_eq_true, if_false] at h
          obtain ⟨hm, hb⟩ := ih c h
          exact ⟨List.mem_cons_of_mem _ hm, hb⟩
      | true =>
          rw [he] at h
          simp only [if_true] at h
          rcases pickBetter_cases j c _ h with hc | hc
          · subst hc
            exact ⟨List.mem_cons_self _ _, he⟩
          · obtain ⟨hm, hb⟩ := ih c hc
            exact ⟨List.mem_cons_of_mem _ hm, hb⟩

theorem selectNext_eq_none_of_no_eligible (now : Int) :
    ∀ (js : List Job), (∀ j ∈ js, jobEligible now j = false) →
      selectNext now js = none := by
  intro js
  induction js with
  | nil => intro _; simp [selectNext]
  | cons j rest ih =>
      intro h
      have hj : jobEligible now j = false := h j (List.mem_cons_self _ _)
      have hrest := ih fun x hx => h x (List.mem_cons_of_mem _ hx)
      simp [selectNext, hj, hrest]

/-- A freshly claimed row is never eligible: its status is `running`. -/
theorem claimJob_not_eligible (now now' : Int) (r : String) (j : Job) :
    jobEligible now' (claimJob now r j) = false := by
  have hs : (JobStatus.running == JobStatus.queued) = false := by decide
  simp [jobEligible, claimJob, hs]

/-- With no eligible row, `get_next_job` returns none and leaves the
table unchanged. -/
theorem get_next_job_of_no_eligible (now : Int) (r : String) (js : List Job)
    (h : js.filter (jobEligible now) = []) :
    get_next_job now r js = (none, js) := by
  have hall : ∀ j ∈ js, jobEligible now j = false := by
    intro j hj
    by_contra hc
    have : j ∈ js.filter (jobEligible now) :=
      List.mem_filter.mpr ⟨hj, by revert hc; cases jobEligible now j <;> simp⟩
    simp [h] at this
  simp [get_next_job, selectNext_eq_none_of_no_eligible now js hall]

/-- If the selection comes back empty, no row was eligible. -/
theorem selectNext_none_forall (now : Int) :
    ∀ (js : List Job), selectNext now js = none →
      ∀ j ∈ js, jobEligible now j = false := by
  intro js
  induction js with
  | nil => intro _ j hj; simp at hj
  | cons j rest ih =>
      intro h x hx
      simp only [selectNext] at h
      cases he : jobEligible now j with
      | true =>
          rw [he] at h
          simp only [if_true] at h
          cases hr : selectNext now rest <;> rw [hr] at h
          · simp [pickBetter] at h
          · simp only [pickBetter] at h
            split at h <;> simp at h
      | false =>
          rw [he] at h
          simp only [Bool.false_eq_true, if_false] at h
          rcases List.mem_cons.mp hx with hx | hx
          · subst hx; exact he
          · exact ih h x hx

/-- With exactly one eligible row, `get_next_job` claims that row and
afterwards no row is eligible. -/
theorem get_next_job_of_one_eligible (now : Int) (r : String) (js : List Job)
    (e : Job) (h : js.filter (jobEligible now) = [e]) :
    get_next_job now r js =
      (some (claimJob now r e),
       js.map fun j => if j.id == e.id then claimJob now r j else j) ∧
    (js.map fun j => if j.id == e.id then claimJob now r j else j).filter
      (jobEligible now) = [] := by
  have hmem : ∀ j, j ∈ js → jobEligible now j = true → j = e := by
    intro j hj hel
    have : j ∈ js.filter (jobEligible now) := List.mem_filter.mpr ⟨hj, hel⟩
    rw [h] at this
    simpa using this
  have he_mem : e ∈ js ∧ jobEligible now e = true := by
    have : e ∈ js.filter (jobEligible now) := by rw [h]; simp
    exact ⟨(List.mem_filter.mp this).1, (List.mem_filter.mp this).2⟩
  obtain ⟨c, hc⟩ : ∃ c, selectNext now js = some c := by
    cases hcc : selectNext now js with
    | some c => exact ⟨c, rfl⟩
    | none =>
        have := selectNext_none_forall now js hcc e he_mem.1
        rw [he_mem.2] at this
        cases this
  have hce : c = e := by
    obtain ⟨hm, hel⟩ := selectNext_mem_eligible now js c hc
    exact hmem c hm hel
  subst hce
  refine ⟨by simp [get_next_job, hc], ?_⟩
  rw [List.filter_eq_nil_iff]
  intro x hx
  obtain ⟨j, hj, hxj⟩ := List.mem_map.mp hx
  by_cases hid : (j.id == c.id) = true
  · rw [if_pos hid] at hxj
    subst hxj
    simp [claimJob_not_eligible]
  · rw [if_neg hid] at hxj
    subst hxj
    intro hel
    exact hid (by rw [hmem j hj hel]; exact beq_self_eq_true _)

/-- With no eligible row, a whole batch of claims returns none for
every runner and leaves the table unchanged. -/
theorem runClaims_no_eligible (now : Int) (runners : List String)
    (jobs : List Job) (h : jobs.filter (jobEligible now) = []) :
    runClaims now runners jobs = (runners.map fun _ => none, jobs) := by
  induction runners with
  | nil => simp [runClaims]
  | cons r rest ih =>
      simp [runClaims, get_next_job_of_no_eligible now r jobs h, ih]

/-! ### C1 — mutual exclusion of concurrent claims -/

/-- Claim C1: For N concurrent `claimNext` calls (serialized by the
store's `for update skip locked` row lock) against a table containing
exactly one eligible job, exactly one call returns a job — that very
job — and the other N−1 return none, so at most one runner acquires
the lease. -/
theorem claim_C1_mutual_exclusion (now : Int) (runners : List String)
    (jobs : List Job) (e : Job) (hne : runners ≠ [])
    (h : jobs.filter (jobEligible now) = [e]) :
    (runClaims now runners jobs).1.countP Option.isSome = 1 ∧
    ∀ o ∈ (runClaims now runners jobs).1, ∀ j, o = some j → j.id = e.id := by
  cases runners with
  | nil => exact absurd rfl hne
  | cons r rest =>
      obtain ⟨h1, h2⟩ := get_next_job_of_one_eligible now r jobs e h
      have hrest := runClaims_no_eligible now rest _ h2
      have hres : (runClaims now (r :: rest) jobs).1 =
          some (claimJob now r e) :: rest.map fun _ => none := by
        simp only [runClaims, h1, hrest]
      constructor
      · rw [hres]
        simp [List.countP_cons, List.countP_map, Function.comp]
      · intro o ho j hoj
        rw [hres] at ho
        rcases List.mem_cons.mp ho with ho | ho
        · subst ho
          injection hoj with hoj
          subst hoj
          rfl
        · obtain ⟨_, _, hnone⟩ := List.mem_map.mp ho
          rw [← hnone] at hoj
          cases hoj

/-- Witness for C1 at a concrete store: three concurrent runners, one
eligible job. -/
theorem claim_C1_mutual_exclusion_instance :
    (runClaims 5 ["alpha", "beta", "gamma"] [fxQueuedJob]).1.countP
      Option.isSome = 1 ∧
    ∀ o ∈ (runClaims 5 ["alpha", "beta", "gamma"] [fxQueuedJob]).1,
      ∀ j, o = some j → j.id = fxQueuedJob.id :=
  claim_C1_mutual_exclusion 5 ["alpha", "beta", "gamma"] [fxQueuedJob]
    fxQueuedJob (by decide) (by decide)

/-! ### C2 — stale-lease reclamation (code bug) -/

/-- Claim C2: The spec requires `claimNext` to also select `running` jobs
whose lease is stale, reclaiming jobs abandoned by a crashed runner.
The code's `get_next_job` filters on `status = 'queued'` only, so a job
left `running` with a lease 60 minutes old (far beyond the 5-minute
staleness threshold) is never reclaimed: a different runner's claim
returns none and the table is unchanged. -/
theorem claim_C2_stale_running_never_reclaimed :
    (3600000 : Int) - staleLeaseMs > 0 ∧
    fxStaleRunningJob.status = JobStatus.running ∧
    fxStaleRunningJob.locked_at = some 0 ∧
    get_next_job 3600000 "runnerB" [fxStaleRunningJob] =
      (none, [fxStaleRunningJob]) := by
  refine ⟨by decide, rfl, rfl, ?_⟩
  decide

/-! ### C3 — failure finalization state machine -/

/-- Claim C3: Failure finalization is a two-case state machine: below
`max_attempts` the job goes back to `queued` with
`run_after = now + delay(attempts)`, lease cleared and `last_error`
recorded; at or above `max_attempts` it becomes terminally `failed`
with lease cleared, `last_error`, `finished_at` and duration recorded.
A job with `max_attempts = 3` whose executor fails on all three
attempts ends in `status = failed` with `locked_at = null`. -/
theorem claim_C3_failure_finalize (now : Int) (msg : String) (job : Job) :
    (job.attempts < job.max_attempts →
      finalizeFailure now msg job.attempts job.max_attempts job =
        { job with
          status := JobStatus.queued
          run_after := now + failureBackoffMs job.attempts
          last_error := some msg
          locked_at := none
          locked_by := none }) ∧
    (job.max_attempts ≤ job.attempts →
      finalizeFailure now msg job.attempts job.max_attempts job =
        { job with
          status := JobStatus.failed
          finished_at := some now
          duration_ms := some 0
          last_error := some msg
          locked_at := none
          locked_by := none }) ∧
    fxThreeFailuresDb.jobs.map
      (fun j => (j.status, j.locked_at, j.attempts)) =
      [(JobStatus.failed, none, 3)] := by
  refine ⟨fun h => ?_, fun h => ?_, by decide⟩
  · rw [finalizeFailure, if_neg (by omega)]
  · rw [finalizeFailure, if_pos h]

/-- Witness for C3: both branches at concrete claimed jobs. -/
theorem claim_C3_failure_finalize_witness :
    (finalizeFailure 100 "e" fxRetryJob.attempts fxRetryJob.max_attempts
        fxRetryJob =
      { fxRetryJob with
        status := JobStatus.queued
        run_after := 100 + failureBackoffMs fxRetryJob.attempts
        last_error := some "e"
        locked_at := none
        locked_by := none }) ∧
    (finalizeFailure 100 "e" fxTerminalJob.attempts fxTerminalJob.max_attempts
        fxTerminalJob =
      { fxTerminalJob with
        status := JobStatus.failed
        finished_at := some 100
        duration_ms := some 0
        last_error := some "e"
        locked_at := none
        locked_by := none }) :=
  ⟨(claim_C3_failure_finalize 100 "e" fxRetryJob).1 (by decide),
   (claim_C3_failure_finalize 100 "e" fxTerminalJob).2.1 (by decide)⟩

/-! ### C4 — backoff policy exactness -/

/-- Claim C4: The backoff policy is the pure function
`delay(attempts) = min(2^attempts, 60)` minutes: `calculateBackoff`
computes exactly this in milliseconds, the runner loop's inline backoff
agrees with it, and `delay(0) = 1`min, `delay(3) = 8`min,
`delay(6) = 60`min (capped), `delay(10) = 60`min. -/
theorem claim_C4_backoff_policy :
    (∀ a : Nat, calculateBackoff a 60 = min (2 ^ a) 60 * 60 * 1000 ∧
      failureBackoffMs a = ((calculateBackoff a 60 : Nat) : Int)) ∧
    calculateBackoff 0 60 = 1 * 60000 ∧
    calculateBackoff 3 60 = 8 * 60000 ∧
    calculateBackoff 6 60 = 60 * 60000 ∧
    calculateBackoff 10 60 = 60 * 60000 := by
  refine ⟨fun a => ⟨rfl, ?_⟩, by decide, by decide, by decide, by decide⟩
  simp [failureBackoffMs, calculateBackoff]

/-! ### C5 — claims respect `run_after` and terminal statuses -/

/-- Claim C5: Whenever `get_next_job` returns a job, the selected row was
`queued` (in particular neither `succeeded` nor `failed` — terminal
jobs are never claimed, in any store state) and its `run_after` had
already elapsed; the returned row is the claimed copy of that row, so
it is never handed out before its `run_after`. -/
theorem claim_C5_no_premature_or_terminal_claims (now : Int) (r : String)
    (jobs : List Job) (j : Job) (jobs' : List Job)
    (h : get_next_job now r jobs = (some j, jobs')) :
    j.run_after ≤ now ∧
    ∃ v ∈ jobs, v.status = JobStatus.queued ∧ v.run_after ≤ now ∧
      v.status ≠ JobStatus.succeeded ∧ v.status ≠ JobStatus.failed ∧
      j = claimJob now r v := by
  rw [get_next_job] at h
  cases hsel : selectNext now jobs with
  | none => rw [hsel] at h; cases h
  | some v =>
      rw [hsel] at h
      injection h with h1 h2
      injection h1 with h1
      obtain ⟨hm, hel⟩ := selectNext_mem_eligible now jobs v hsel
      rw [jobEligible, Bool.and_assoc] at hel
      obtain ⟨hst, hrest⟩ := Bool.and_eq_true_iff.mp hel
      obtain ⟨hra, _⟩ := Bool.and_eq_true_iff.mp hrest
      have hstatus : v.status = JobStatus.queued := by
        revert hst
        cases v.status <;> decide
      have hrun : v.run_after ≤ now := by
        simpa using hra
      subst h1
      refine ⟨hrun, v, hm, hstatus, hrun, ?_, ?_, rfl⟩
      · rw [hstatus]; decide
      · rw [hstatus]; decide

/-- Witness for C5 at a concrete store. -/
theorem claim_C5_no_premature_or_terminal_claims_witness :
    (claimJob 5 "w" fxQueuedJob).run_after ≤ 5 ∧
    ∃ v ∈ [fxQueuedJob], v.status = JobStatus.queued ∧ v.run_after ≤ 5 ∧
      v.status ≠ JobStatus.succeeded ∧ v.status ≠ JobStatus.failed ∧
      claimJob 5 "w" fxQueuedJob = claimJob 5 "w" v :=
  claim_C5_no_premature_or_terminal_claims 5 "w" [fxQueuedJob]
    (claimJob 5 "w" fxQueuedJob) [claimJob 5 "w" fxQueuedJob] (by decide)

/-! ### C9 — runner loop counters -/

/-- Claim C9: For every invocation of the runner loop, with any executor
dispatch: `processed` counts exactly the claimed-and-dispatched jobs
(one ghost outcome per iteration: success, scheduled retry, or
terminal failure), `failed` counts exactly the terminally failed ones
(a retried failure increments `processed` but not `failed`), and
`0 ≤ failed ≤ processed ≤ batchLimit`. -/
theorem claim_C9_runner_counters (exec : Db → Job → JobResult × Db)
    (now : Int) (rid : String) (batchLimit : Nat) (db : Db) :
    (runJobProcessor exec now rid batchLimit db).processed =
      (runJobProcessor exec now rid batchLimit db).outcomes.length ∧
    (runJobProcessor exec now rid batchLimit db).failed =
      ((runJobProcessor exec now rid batchLimit db).outcomes.filter
        (· == Outcome.terminalFailed)).length ∧
    (runJobProcessor exec now rid batchLimit db).failed ≤
      (runJobProcessor exec now rid batchLimit db).processed ∧
    (runJobProcessor exec now rid batchLimit db).processed ≤ batchLimit := by
  induction batchLimit generalizing db with
  | zero => simp [runJobProcessor]
  | succ n ih =>
      cases hstep : runnerStep exec now rid db with
      | none => simp [runJobProcessor, hstep]
      | some p =>
          rcases p with ⟨o, db'⟩
          obtain ⟨h1, h2, h3, h4⟩ := ih db'
          simp only [runJobProcessor, hstep]
          cases o with
          | success =>
              refine ⟨by simp [h1], ?_, by simp; omega, by simp; omega⟩
              simp only [List.filter_cons]
              have : (Outcome.success == Outcome.terminalFailed) = false := by
                decide
              simp [this, h2]
          | retried =>
              refine ⟨by simp [h1], ?_, by simp; omega, by simp; omega⟩
              simp only [List.filter_cons]
              have : (Outcome.retried == Outcome.terminalFailed) = false := by
                decide
              simp [this, h2]
          | terminalFailed =>
              refine ⟨by simp [h1], ?_, by simp; omega, by simp; omega⟩
              simp only [List.filter_cons]
              have : (Outcome.terminalFailed == Outcome.terminalFailed) = true := by
                decide
              simp [this, h2]

/-! ### Lemmas about the embedding upsert -/

/-- Replacing the (at most one) element satisfying `p` by `row` leaves
a list whose `p`-selection is exactly `[row]`. -/
theorem filter_map_replace {α : Type} (p : α → Bool) (row : α)
    (hp : p row = true) :
    ∀ l : List α, (l.filter p).length ≤ 1 → l.any p = true →
      (l.map fun e => if p e then row else e).filter p = [row] := by
  intro l
  induction l with
  | nil => intro _ h; simp at h
  | cons a rest ih =>
      intro hlen hany
      cases ha : p a with
      | true =>
          have hrestnil : rest.filter p = [] := by
            rw [List.filter_cons, if_pos ha] at hlen
            simp only [List.length_cons] at hlen
            exact List.eq_nil_of_length_eq_zero (by omega)
          have hmap : (rest.map fun e => if p e then row else e) = rest := by
            have hall := List.filter_eq_nil_iff.mp hrestnil
            calc rest.map (fun e => if p e then row else e)
                = rest.map id := by
                  apply List.map_congr_left
                  intro x hx
                  simp [Bool.eq_false_iff.mpr (hall x hx)]
              _ = rest := List.map_id rest
          rw [List.map_cons, if_pos ha, hmap, List.filter_cons, if_pos hp,
            hrestnil]
      | false =>
          have hany' : rest.any p = true := by
            rw [List.any_cons, ha] at hany
            simpa using hany
          have hlen' : (rest.filter p).length ≤ 1 := by
            rw [List.filter_cons, if_neg (by simp [ha])] at hlen
            exact hlen
          rw [List.map_cons, if_neg (by simp [ha]), List.filter_cons,
            if_neg (by simp [ha])]
          exact ih hlen' hany'

/-- After upserting `row`, the `note_id` selection is exactly `[row]`
(given the table respects its primary key beforehand). -/
theorem upsertEmbedding_filter (db : Db) (row : NoteEmbeddingRow)
    (hwf : (db.embeddings.filter fun e => e.note_id == row.note_id).length ≤ 1) :
    (upsertEmbedding db row).embeddings.filter
      (fun e => e.note_id == row.note_id) = [row] := by
  rw [upsertEmbedding]
  cases hany : db.embeddings.any fun e => e.note_id == row.note_id with
  | true =>
      simp only [hany, if_true]
      exact filter_map_replace (fun e => e.note_id == row.note_id) row
        (beq_self_eq_true row.note_id) db.embeddings hwf hany
  | false =>
      simp only [hany, Bool.false_eq_true, if_false]
      have hnil : db.embeddings.filter (fun e => e.note_id == row.note_id) = [] := by
        rw [List.filter_eq_nil_iff]
        intro x hx
        exact List.any_eq_false.mp hany x hx
      rw [List.filter_append, hnil]
      simp [beq_self_eq_true]

/-- The upsert leaves every other table alone. -/
theorem upsertEmbedding_notes (db : Db) (row : NoteEmbeddingRow) :
    (upsertEmbedding db row).notes = db.notes := by
  rw [upsertEmbedding]
  split <;> rfl

/-! ### C6 — idempotent embedding -/

/-- Claim C6: Running `embed_note` twice on the same unchanged note (its
text nonempty, the store respecting the embeddings primary key, and no
up-to-date stored hash initially) calls the remote embedding service
exactly once: the first run embeds (call count 1), the second finds
the freshly computed content hash equal to the stored one and is a
zero-cost no-op (call count 0, `tokensEstimate = 0`) that leaves the
whole embeddings table — in particular the stored vector —
unchanged. -/
theorem claim_C6_embed_idempotent (env : Env) (db : Db) (job : Job)
    (nid : String) (note : Note)
    (hp : job.payload = Payload.noteRef nid)
    (hn : lookupNote db job.user_id nid = some note)
    (ht : isBlank (textForProcessing note) = false)
    (hwf : (db.embeddings.filter fun e => e.note_id == nid).length ≤ 1)
    (hmiss : storedHashMatches db nid
      (env.hashFn (textForProcessing note)) = false) :
    (processEmbedNote env db job).1.success = true ∧
    (processEmbedNote env db job).2.2 = 1 ∧
    (processEmbedNote env (processEmbedNote env db job).2.1 job).1 =
      zeroCostSuccess ∧
    (processEmbedNote env (processEmbedNote env db job).2.1 job).2.2 = 0 ∧
    (processEmbedNote env (processEmbedNote env db job).2.1 job).2.1 =
      (processEmbedNote env db job).2.1 := by
  have hstep : processEmbedNote env db job =
      ({ success := true
         tokensEstimate := some (ceilDiv4 (textForProcessing note).length)
         error := none },
       upsertEmbedding db
         { note_id := nid
           user_id := job.user_id
           embedding := env.embedFn (textForProcessing note)
           model := env.embeddingModel
           content_hash := env.hashFn (textForProcessing note) }, 1) := by
    simp [processEmbedNote, hp, payloadNoteId, hn, ht, hmiss]
  have hrow :
      ({ note_id := nid
         user_id := job.user_id
         embedding := env.embedFn (textForProcessing note)
         model := env.embeddingModel
         content_hash := env.hashFn (textForProcessing note) } :
        NoteEmbeddingRow).note_id = nid := rfl
  have hn1 : lookupNote (processEmbedNote env db job).2.1 job.user_id nid =
      some note := by
    rw [hstep]
    rw [lookupNote] at hn ⊢
    rw [upsertEmbedding_notes]
    exact hn
  have hfilter : ((processEmbedNote env db job).2.1).embeddings.filter
      (fun e => e.note_id == nid) =
      [{ note_id := nid
         user_id := job.user_id
         embedding := env.embedFn (textForProcessing note)
         model := env.embeddingModel
         content_hash := env.hashFn (textForProcessing note) }] := by
    rw [hstep]
    exact upsertEmbedding_filter db
      { note_id := nid
        user_id := job.user_id
        embedding := env.embedFn (textForProcessing note)
        model := env.embeddingModel
        content_hash := env.hashFn (textForProcessing note) } hwf
  have hmatch : storedHashMatches (processEmbedNote env db job).2.1 nid
      (env.hashFn (textForProcessing note)) = true := by
    rw [storedHashMatches, hfilter]
    simp [singleRow]
  have key : ∀ d : Db, lookupNote d job.user_id nid = some note →
      storedHashMatches d nid (env.hashFn (textForProcessing note)) = true →
      processEmbedNote env d job = (zeroCostSuccess, d, 0) := by
    intro d hld hmd
    simp [processEmbedNote, hp, payloadNoteId, hld, ht, hmd, zeroCostSuccess]
  refine ⟨by rw [hstep], by rw [hstep], ?_, ?_, ?_⟩ <;>
    rw [key _ hn1 hmatch]

/-- Witness for C6 at a concrete store: the text note `n1` with no
stored embedding. -/
theorem claim_C6_embed_idempotent_witness :
    (processEmbedNote fxEnv fxDbWithNote fxEmbedJob).1.success = true ∧
    (processEmbedNote fxEnv fxDbWithNote fxEmbedJob).2.2 = 1 ∧
    (processEmbedNote fxEnv
      (processEmbedNote fxEnv fxDbWithNote fxEmbedJob).2.1 fxEmbedJob).1 =
      zeroCostSuccess ∧
    (processEmbedNote fxEnv
      (processEmbedNote fxEnv fxDbWithNote fxEmbedJob).2.1 fxEmbedJob).2.2 = 0 ∧
    (processEmbedNote fxEnv
      (processEmbedNote fxEnv fxDbWithNote fxEmbedJob).2.1 fxEmbedJob).2.1 =
      (processEmbedNote fxEnv fxDbWithNote fxEmbedJob).2.1 :=
  claim_C6_embed_idempotent fxEnv fxDbWithNote fxEmbedJob "n1" fxNote rfl
    (by decide) (by decide) (by decide) (by decide)

/-! ### C7 — caption chaining (corrected) -/

/-- Claim C7, counterexample: A `caption_ink` execution on a note that
already has a caption succeeds but enqueues nothing: the jobs table is
unchanged and contains no `embed_note` job at all, refuting "every
successful `caption_ink` execution results in exactly one newly
enqueued `embed_note` job — never zero". -/
theorem claim_C7_counterexample_noop_caption :
    (processCaptionInk fxEnv fxDbCaptioned fxCaptionJob).1.success = true ∧
    (processCaptionInk fxEnv fxDbCaptioned fxCaptionJob).2.jobs =
      fxDbCaptioned.jobs ∧
    ((processCaptionInk fxEnv fxDbCaptioned fxCaptionJob).2.jobs.filter
      fun j => j.type == JobType.embed_note).length = 0 := by
  refine ⟨rfl, rfl, by decide⟩

/-- Claim C7, amended: Every `caption_ink` execution that actually
produces a caption (note found, no caption yet, ink data present)
succeeds and enqueues exactly one `embed_note` job for the same note —
never zero, never more than one; executions that succeed as no-ops
(caption already present, or no ink data) enqueue nothing. -/
theorem claim_C7_amended_chaining (env : Env) (db : Db) (job : Job)
    (nid : String) (note : Note)
    (hp : job.payload = Payload.noteRef nid)
    (hn : lookupNote db job.user_id nid = some note) :
    (∀ ink : InkData, note.ink_caption = none → note.ink_json = some ink →
      (processCaptionInk env db job).1.success = true ∧
      (processCaptionInk env db job).2.jobs =
        db.jobs ++ [freshJob db.nextJobId job.user_id JobType.embed_note
          (Payload.noteRef nid) env.now]) ∧
    (note.ink_caption.isSome = true →
      processCaptionInk env db job = (zeroCostSuccess, db)) ∧
    (note.ink_caption = none → note.ink_json = none →
      processCaptionInk env db job = (zeroCostSuccess, db)) := by
  refine ⟨fun ink hc hj => ?_, fun hc => ?_, fun hc hj => ?_⟩
  · cases hip : note.ink_image_path with
    | none =>
        constructor <;>
          simp [processCaptionInk, hp, payloadNoteId, hn, hc, hj, hip,
            enqueueJob]
    | some p =>
        cases hdl : env.downloadResult with
        | error e =>
            constructor <;>
              simp [processCaptionInk, hp, payloadNoteId, hn, hc, hj, hip,
                hdl, enqueueJob]
        | ok u =>
            cases hv : env.visionResult with
            | error e =>
                constructor <;>
                  simp [processCaptionInk, hp, payloadNoteId, hn, hc, hj,
                    hip, hdl, hv, enqueueJob]
            | ok c =>
                constructor <;>
                  simp [processCaptionInk, hp, payloadNoteId, hn, hc, hj,
                    hip, hdl, hv, enqueueJob]
  · simp [processCaptionInk, hp, payloadNoteId, hn, hc]
  · simp [processCaptionInk, hp, payloadNoteId, hn, hc, hj]

/-- Witness for the amended C7: captioning the uncaptioned ink note
enqueues exactly the one fresh `embed_note` job. -/
theorem claim_C7_amended_chaining_witness :
    (processCaptionInk fxEnv fxDbInk fxCaptionJob).1.success = true ∧
    (processCaptionInk fxEnv fxDbInk fxCaptionJob).2.jobs =
      fxDbInk.jobs ++ [freshJob fxDbInk.nextJobId fxCaptionJob.user_id
        JobType.embed_note (Payload.noteRef "n1") fxEnv.now] :=
  (claim_C7_amended_chaining fxEnv fxDbInk fxCaptionJob "n1" fxInkNote rfl
    (by decide)).1 fxInk rfl rfl

/-! ### C8 — soft failure falls back to the stroke-count caption -/

/-- Claim C8: When `caption_ink` actually captions a note with a stored
ink image but the image download or the vision call fails, the
executor substitutes the deterministic stroke-count fallback caption
("Handwritten note (N strokes)") onto the note and still reports
overall success (with the base cost estimate of 100), so the runner
loop records no failure and schedules no retry. -/
theorem claim_C8_fallback_caption (env : Env) (db : Db) (job : Job)
    (nid : String) (note : Note) (ink : InkData) (p : String)
    (hp : job.payload = Payload.noteRef nid)
    (hn : lookupNote db job.user_id nid = some note)
    (hc : note.ink_caption = none)
    (hj : note.ink_json = some ink)
    (hip : note.ink_image_path = some p)
    (hfail : (∃ e, env.downloadResult = Except.error e) ∨
      (env.downloadResult = Except.ok () ∧
        ∃ e, env.visionResult = Except.error e)) :
    (processCaptionInk env db job).1 =
      { success := true, tokensEstimate := some 100, error := none } ∧
    (processCaptionInk env db job).2.notes =
      db.notes.map fun n =>
        if n.id == nid then { n with ink_caption := some (fallbackCaption ink) }
        else n := by
  rcases hfail with ⟨e, hdl⟩ | ⟨hdl, e, hv⟩
  · constructor <;>
      simp [processCaptionInk, hp, payloadNoteId, hn, hc, hj, hip, hdl,
        enqueueJob]
  · constructor <;>
      simp [processCaptionInk, hp, payloadNoteId, hn, hc, hj, hip, hdl, hv,
        enqueueJob]

/-- Witness for C8: the download of `n1`'s ink image fails, the note
receives the two-stroke fallback caption, and the job succeeds. -/
theorem claim_C8_fallback_caption_witness :
    (processCaptionInk fxEnvDownloadFail fxDbInk fxCaptionJob).1 =
      { success := true, tokensEstimate := some 100, error := none } ∧
    (processCaptionInk fxEnvDownloadFail fxDbInk fxCaptionJob).2.notes =
      fxDbInk.notes.map fun n =>
        if n.id == "n1" then { n with ink_caption := some (fallbackCaption fxInk) }
        else n :=
  claim_C8_fallback_caption fxEnvDownloadFail fxDbInk fxCaptionJob "n1"
    fxInkNote fxInk "ink/u/n1.png" rfl (by decide) rfl rfl rfl
    (Or.inl ⟨"download failed", rfl⟩)

/-! ### C10 — missing note fails the executor and the job -/

/-- Claim C10: For each of `classify_note`, `embed_note` and
`caption_ink`, when no note with the payload's `note_id` exists for the
job's owner, the executor returns failure with error "Note not found"
(not a no-op success); consequently such a job is retried under backoff
and — as the concrete three-invocation trace over the real dispatch
shows — ends in `status = failed` with the error retained. -/
theorem claim_C10_missing_note :
    (∀ (env : Env) (db : Db) (job : Job) (nid : String),
      job.payload = Payload.noteRef nid →
      lookupNote db job.user_id nid = none →
      (processClassifyNote env db job).1 = noteNotFound ∧
      (processEmbedNote env db job).1 = noteNotFound ∧
      (processCaptionInk env db job).1 = noteNotFound) ∧
    fxMissingNoteFailedDb.jobs.map
      (fun j => (j.status, j.locked_at, j.last_error)) =
      [(JobStatus.failed, none, some "Note not found")] := by
  refine ⟨fun env db job nid hp hl => ⟨?_, ?_, ?_⟩, by decide⟩
  · simp [processClassifyNote, hp, payloadNoteId, hl]
  · simp [processEmbedNote, hp, payloadNoteId, hl]
  · simp [processCaptionInk, hp, payloadNoteId, hl]

/-- Witness for C10's universal part at a concrete store with no
notes. -/
theorem claim_C10_missing_note_witness :
    (processClassifyNote fxEnv fxDb0 fxQueuedJob).1 = noteNotFound ∧
    (processEmbedNote fxEnv fxDb0 fxQueuedJob).1 = noteNotFound ∧
    (processCaptionInk fxEnv fxDb0 fxQueuedJob).1 = noteNotFound :=
  claim_C10_missing_note.1 fxEnv fxDb0 fxQueuedJob "n1" rfl (by decide)

end ArchivAI
